import Mathlib

/-!
# Verification of the MixPanel→Slack reporting core

A shallow embedding of the report-generation core of the repository
(`shared/mixpanel_client.py`, `shared/report_generator.py`,
`shared/slack_client.py`), followed by theorems checking the
specification's claims about it.

Modelling conventions:
* Calendar dates are day numbers (`ℤ`); `datetime.now()` is an abstract
  `today : ℤ` parameter, `timedelta(days=d)` is subtraction, and
  `strftime("%Y-%m-%d")` is the identity (it is injective and monotone on
  calendar days, so nothing about window arithmetic is lost).
* Python dictionaries that are built up in insertion order are association
  lists (`List (String × _)`); the keys written by the code are pairwise
  distinct, so an association list is a faithful image.
* A collaborator method that may raise is a function into `Except String _`;
  `try/except` becomes a `match` on that value.  The MixPanel segmentation
  response dictionary is `MpResponse`: `ok` for a `{"data": {"values": ...}}`
  payload, `err` for the `{"error": ...}` dictionary that
  `MixPanelClient._make_request` returns on a request exception.
* Python `round(x, 1)` (banker's rounding to one decimal) is modelled
  exactly over `ℚ`: IEEE doubles are abstracted to rationals.
* Fields of the report dictionary that no claim touches (`generated_at`,
  `mixpanel_url`) are omitted from the `Report` structure.
-/

/-- Direction of a period-over-period change, from
`report_generator.py:_calculate_change`. -/
inductive Direction where
  | up
  | down
  | flat
deriving DecidableEq, Repr

/-- The comparison dictionary built by `_calculate_change`.  The source
returns `{"percent", "direction", "is_new"}` always and adds a `"previous"`
key only on the general branch; the optional key is an `Option`. -/
structure Change where
  percent : ℚ
  direction : Direction
  previous : Option ℕ
  is_new : Bool
deriving DecidableEq, Repr

/-- Round half to even (the rounding mode of Python's builtin `round`). -/
def roundHalfEven (q : ℚ) : ℤ :=
  let f : ℤ := ⌊q⌋
  let r : ℚ := q - f
  if r < 1/2 then f
  else if 1/2 < r then f + 1
  else if 2 ∣ f then f else f + 1

/-- Python `round(x, 1)`: round to one decimal place, ties to even. -/
def pyRound1 (q : ℚ) : ℚ := (roundHalfEven (10 * q) : ℚ) / 10

/-- The source's `ReportGenerator._calculate_change(current, previous)`
(report_generator.py lines 114–129). -/
def calculate_change (current previous : ℕ) : Change :=
  if previous = 0 then
    if current > 0 then
      { percent := 100, direction := .up, previous := none, is_new := true }
    else
      { percent := 0, direction := .flat, previous := none, is_new := false }
  else
    let change : ℚ := ((current : ℚ) - (previous : ℚ)) / (previous : ℚ) * 100
    let dir : Direction :=
      if change > 0 then .up else if change < 0 then .down else .flat
    { percent := |pyRound1 change|, direction := dir,
      previous := some previous, is_new := false }

/-- The source's `PERIOD_DAYS` class table of `ReportGenerator`. -/
def PERIOD_DAYS : List (String × ℕ) :=
  [("daily", 1), ("weekly", 7), ("biweekly", 14), ("monthly", 30)]

/-- The source's `mixpanel_client.get_date_range(period)` over an abstract `today`:
the if/elif chain picking the lookback, unrecognised periods defaulting
to the 1-day (daily) lookback. -/
def get_date_range (period : String) (today : ℤ) : ℤ × ℤ :=
  if period = "daily" then (today - 1, today)
  else if period = "weekly" then (today - 7, today)
  else if period = "biweekly" then (today - 14, today)
  else if period = "monthly" then (today - 30, today)
  else (today - 1, today)

/-- The source's `ReportGenerator._get_previous_period_dates(period)`:
`days = PERIOD_DAYS.get(period, 7)`, previous window
`(today - 2*days, today - days)`. -/
def get_previous_period_dates (period : String) (today : ℤ) : ℤ × ℤ :=
  let days : ℤ := ((PERIOD_DAYS.lookup period).getD 7 : ℕ)
  (today - days - days, today - days)

/-- A calendar day lies in an inclusive `(from_date, to_date)` window. -/
def memWindow (d : ℤ) (w : ℤ × ℤ) : Prop := w.1 ≤ d ∧ d ≤ w.2

instance (d : ℤ) (w : ℤ × ℤ) : Decidable (memWindow d w) := by
  unfold memWindow; infer_instance

/-- A MixPanel segmentation/unique-users response as probed by the
generator: `ok values` models `{"data": {"values": day → segment → count}}`,
`err` models the `{"error": ...}` dictionary `_make_request` returns on a
request exception (truthy, but without a `"data"` key). -/
inductive MpResponse where
  | ok (values : List (String × List (String × ℕ)))
  | err (msg : String)
deriving DecidableEq, Repr

/-- The `data and "data" in data and "values" in data["data"]` probe. -/
def respValues : MpResponse → Option (List (String × List (String × ℕ)))
  | .ok values => some values
  | .err _ => none

/-- The source's `sum(sum(day_values.values()) for day_values in data["data"]["values"].values())`. -/
def totalOf (values : List (String × List (String × ℕ))) : ℕ :=
  (values.map (fun day => (day.2.map Prod.snd).sum)).sum

/-- A raw exported event record; `event` is `None` when the `"event"` key
is absent (the code falls back to `"unknown"`). -/
structure RawEvent where
  event : Option String
deriving DecidableEq, Repr

/-- The source's `event.get("event", "unknown")`. -/
def eventName (e : RawEvent) : String := e.event.getD "unknown"

/-- One step of the counting loop of `get_top_events`:
`event_counts[name] = event_counts.get(name, 0) + 1` on an
insertion-ordered dictionary. -/
def bump (name : String) : List (String × ℕ) → List (String × ℕ)
  | [] => [(name, 1)]
  | (n, c) :: rest =>
      if n = name then (n, c + 1) :: rest else (n, c) :: bump name rest

/-- The counting loop of `get_top_events` (mixpanel_client.py lines 178–181),
threading the dictionary through the event list. -/
def count_events_from : List RawEvent → List (String × ℕ) → List (String × ℕ)
  | [], acc => acc
  | e :: rest, acc => count_events_from rest (bump (eventName e) acc)

/-- The source's `event_counts` after the loop, from the empty dictionary. -/
def count_events (events : List RawEvent) : List (String × ℕ) :=
  count_events_from events []

/-- Stable insertion of one entry into a count-descending list: the entry
goes before the first entry whose count it reaches, hence before any
equal-count entry inserted earlier — the placement of Python's stable
`sorted(..., key=count, reverse=True)`. -/
def insertDesc (x : String × ℕ) : List (String × ℕ) → List (String × ℕ)
  | [] => [x]
  | y :: ys => if y.2 ≤ x.2 then x :: y :: ys else y :: insertDesc x ys

/-- Python's `sorted(event_counts.items(), key=lambda x: x[1], reverse=True)`:
a stable sort by count descending (mixpanel_client.py line 184). -/
def sortDesc : List (String × ℕ) → List (String × ℕ)
  | [] => []
  | x :: xs => insertDesc x (sortDesc xs)

/-- The pure aggregation of `MixPanelClient.get_top_events`
(mixpanel_client.py lines 177–185) applied to the exported records:
count by name, stably sort by count descending, truncate to `limit`;
`get_top_events` itself is this applied to `export_raw_events`. -/
def rank (events : List RawEvent) (limit : ℕ) : List (String × ℕ) :=
  (sortDesc (count_events events)).take limit

/-- The analytics collaborator as the report generator sees it: the three
`MixPanelClient` methods it calls.  Each may raise (`Except.error`) or
return a value; `get_segmentation_data` and `get_unique_users` return the
response dictionary (`MpResponse.err` for the error-dictionary case). -/
structure MixPanel where
  get_segmentation_data : String → ℤ → ℤ → Except String MpResponse
  get_unique_users : String → ℤ → ℤ → Except String MpResponse
  get_top_events : ℤ → ℤ → ℕ → Except String (List (String × ℕ))

/-- The source's `KEY_METRIC_EVENTS` class table of `ReportGenerator`. -/
def KEY_METRIC_EVENTS : List (String × String) :=
  [("New Signups", "Sign Up"),
   ("Users Onboarded", "User Onboarded"),
   ("Receipts Uploaded", "Receipt Uploaded"),
   ("PlanetPoints Added", "PlanetPoints Added"),
   ("Vouchers Redeemed", "Voucher Redeemed"),
   ("Products Tracked", "PlanetPoints Product Tracked"),
   ("Referrals Completed", "Referral Completed")]

/-- The `user_metric_name` dispatch of `_calculate_metrics`. -/
def userMetricName (period : String) : String :=
  if period = "daily" then "Daily Active Users"
  else if period = "weekly" then "Weekly Active Users"
  else if period = "biweekly" then "Bi-Weekly Active Users"
  else if period = "monthly" then "Monthly Active Users"
  else "Active Users"

/-- The active-users candidate loop of `_calculate_metrics`
(report_generator.py lines 214–226): try each proxy event; a raise
(`except: continue`), a response without `data/values`, or a zero total
moves on to the next candidate; the first positive total is taken
(`break`). -/
def activeUsersLoop (q : String → Except String MpResponse) :
    List String → Option ℕ
  | [] => none
  | ev :: rest =>
      match q ev with
      | .error _ => activeUsersLoop q rest
      | .ok resp =>
          match respValues resp with
          | none => activeUsersLoop q rest
          | some values =>
              if totalOf values > 0 then some (totalOf values)
              else activeUsersLoop q rest

/-- The key-metric loop of `_calculate_metrics` (report_generator.py lines
230–249): one segmentation query per table entry; a raise, an error
dictionary, or a non-positive total omits the metric, a positive total
stores it under its display name. -/
def metric_totals (q : String → Except String MpResponse) :
    List (String × String) → List (String × ℕ)
  | [] => []
  | (display, ev) :: rest =>
      match q ev with
      | .error _ => metric_totals q rest
      | .ok resp =>
          match respValues resp with
          | none => metric_totals q rest
          | some values =>
              if totalOf values > 0 then
                (display, totalOf values) :: metric_totals q rest
              else metric_totals q rest

/-- The source's `ReportGenerator._calculate_metrics(from_date, to_date, period)`:
the active-users entry (if any) followed by the key-metric totals.  The
display names written by the two parts are disjoint, so the association
list mirrors the dictionary. -/
def calculate_metrics (mp : MixPanel) (from_date to_date : ℤ)
    (period : String) : List (String × ℕ) :=
  (match activeUsersLoop (fun ev => mp.get_unique_users ev from_date to_date)
      ["$ae_session", "Sign Up", "User Onboarded"] with
   | some total => [(userMetricName period, total)]
   | none => []) ++
  metric_totals (fun ev => mp.get_segmentation_data ev from_date to_date)
    KEY_METRIC_EVENTS

/-- The source's `ReportGenerator._compute_comparisons(current, previous)`
(report_generator.py lines 180–188): one comparison per current metric,
against the previous value or 0. -/
def compute_comparisons (current previous : List (String × ℕ)) :
    List (String × Change) :=
  current.map (fun p => (p.1, calculate_change p.2 ((previous.lookup p.1).getD 0)))

/-- The source's `ReportGenerator._get_top_events` (report_generator.py lines 192–198):
delegate to the client, a raise is caught and becomes `[]`. -/
def get_top_events_isolated (mp : MixPanel) (from_date to_date : ℤ) :
    List (String × ℕ) :=
  match mp.get_top_events from_date to_date 10 with
  | .ok tops => tops
  | .error _ => []

/-- Thousands separators of Python's `f"{value:,}"`, on the reversed digit
list: a comma after every three digits. -/
def commaGroup : List Char → List Char
  | c1 :: c2 :: c3 :: c4 :: rest => c1 :: c2 :: c3 :: ',' :: commaGroup (c4 :: rest)
  | l => l

/-- The source's `f"{n:,}"` for a natural number. -/
def fmtNat (n : ℕ) : String :=
  String.mk (commaGroup (toString n).data.reverse).reverse

/-- Rendering of the `percent` number in an insight f-string (the exact
float repr is abstracted to the rational's string form). -/
def fmtPercent (q : ℚ) : String := toString q

/-- The `period_label` dispatch of `_generate_insights`. -/
def period_label (period : String) : String :=
  if period = "daily" then "day"
  else if period = "weekly" then "week"
  else if period = "biweekly" then "two weeks"
  else if period = "monthly" then "month"
  else "period"

/-- The source's `ReportGenerator._format_metric_insight(label, value, comparison,
period_label)` (report_generator.py lines 302–320); `none` is the empty
(falsy) comparison dictionary. -/
def format_metric_insight (label : String) (value : ℕ)
    (comparison : Option Change) (periodLabel : String) : String :=
  match comparison with
  | none =>
      let v := fmtNat value
      s!"{label}: {v}"
  | some ch =>
      let v := fmtNat value
      let pct := fmtPercent ch.percent
      let prev := fmtNat (ch.previous.getD 0)
      if ch.is_new then s!"{label}: {v} (new this {periodLabel})"
      else match ch.direction with
        | .up => s!"{label}: {v} (↑ {pct}% from {prev})"
        | .down => s!"{label}: {v} (↓ {pct}% from {prev})"
        | .flat => s!"{label}: {v} (→ unchanged)"

/-- The `key_insights` table of `_generate_insights`. -/
def KEY_INSIGHTS : List (String × String) :=
  [("New Signups", "New signups"),
   ("Users Onboarded", "Users onboarded"),
   ("Receipts Uploaded", "Receipts uploaded"),
   ("Vouchers Redeemed", "Vouchers redeemed")]

/-- The active-users pick of `_generate_insights`: the first present key
of the ordered label list (`break` after the first hit). -/
def firstPresent (metrics : List (String × ℕ)) :
    List String → Option (String × ℕ)
  | [] => none
  | k :: rest =>
      match metrics.lookup k with
      | some v => some (k, v)
      | none => firstPresent metrics rest

/-- The source's `ReportGenerator._generate_insights(report)` (report_generator.py lines
251–300), as a function of the report fields it reads: headline-metric
insights, at most one active-users insight, a top-event insight, and the
fallback when all of those produced nothing. -/
def insight_steps (metrics : List (String × ℕ))
    (comparisons : List (String × Change)) (period : String)
    (top_events : List (String × ℕ)) : List String :=
  let pl := period_label period
  let step1 := KEY_INSIGHTS.filterMap (fun ki =>
    (metrics.lookup ki.1).map (fun v =>
      format_metric_insight ki.2 v (comparisons.lookup ki.1) pl))
  let step2 :=
    match firstPresent metrics
        ["Daily Active Users", "Weekly Active Users",
         "Monthly Active Users", "Bi-Weekly Active Users"] with
    | some kv => [format_metric_insight kv.1 kv.2 (comparisons.lookup kv.1) pl]
    | none => []
  let step3 :=
    match top_events with
    | [] => []
    | top :: _ =>
        let n := top.1
        let c := fmtNat top.2
        [s!"Most popular action: {n} with {c} occurrences"]
  step1 ++ step2 ++ step3

/-- The closing `if not insights` fallback of `_generate_insights`
(report_generator.py lines 297–298). -/
def generate_insights (metrics : List (String × ℕ))
    (comparisons : List (String × Change)) (period : String)
    (top_events : List (String × ℕ)) : List String :=
  let insights := insight_steps metrics comparisons period top_events
  if insights.isEmpty then ["Analytics data collected successfully"] else insights

/-- The report dictionary of `generate_report` (fields no claim touches —
`generated_at`, `mixpanel_url` — omitted). -/
structure Report where
  period : String
  from_date : ℤ
  to_date : ℤ
  metrics : List (String × ℕ)
  top_events : List (String × ℕ)
  insights : List String
  comparisons : List (String × Change)
  error : Option String
deriving DecidableEq, Repr

/-- The `except Exception` arm of `generate_report` (report_generator.py
lines 174–176): record the description and append the degraded-mode
insight. -/
def degrade (r : Report) (e : String) : Report :=
  { r with error := some e,
           insights := r.insights ++ ["Some data could not be retrieved: " ++ e] }

/-- The `try` block of `generate_report` (report_generator.py lines
160–178) as a statement sequence: each collaborator-touching stage is an
`Except` value (its result, or the exception it let escape); an escape at
any point keeps the fields already assigned and falls to the handler.
The comparison and insight stages are total functions of earlier results,
as in the source. -/
def run_report_body (r : Report)
    (tops : Except String (List (String × ℕ)))
    (mets : Except String (List (String × ℕ)))
    (prevMets : Except String (List (String × ℕ))) : Report :=
  match tops with
  | .error e => degrade r e
  | .ok tv =>
      let r1 := { r with top_events := tv }
      match mets with
      | .error e => degrade r1 e
      | .ok ms =>
          let r2 := { r1 with metrics := ms }
          match prevMets with
          | .error e => degrade r2 e
          | .ok pms =>
              let comps := compute_comparisons ms pms
              let r3 := { r2 with comparisons := comps }
              { r3 with insights := generate_insights ms comps r3.period tv }

/-- The source's `ReportGenerator.generate_report(period)` (report_generator.py lines
135–178) over an abstract `today`.  In this codebase every stage isolates
its own collaborator failures (`_get_top_events` catches, and
`_calculate_metrics` catches per metric), so each stage is instantiated
as an `Except.ok` of a total computation. -/
def generate_report (mp : MixPanel) (period : String) (today : ℤ) : Report :=
  let w := get_date_range period today
  let pw := get_previous_period_dates period today
  let base : Report :=
    { period := period, from_date := w.1, to_date := w.2,
      metrics := [], top_events := [], insights := [], comparisons := [],
      error := none }
  run_report_body base
    (.ok (get_top_events_isolated mp w.1 w.2))
    (.ok (calculate_metrics mp w.1 w.2 period))
    (.ok (calculate_metrics mp pw.1 pw.2 period))

/-- The result of `generate_custom_report`: either a delegation to
`generate_report(period="custom")` or the ad hoc per-event analysis
dictionary. -/
inductive CustomReport where
  | standard (r : Report)
  | adhoc (from_date to_date : Option ℤ) (events : List String)
      (results : List (String × Except String MpResponse))

/-- The source's `ReportGenerator.generate_custom_report(events, from_date, to_date,
segment_by, days)` (report_generator.py lines 322–373).  `if days:` is
Python truthiness (`none` and `some 0` both fall through).  On the `days`
branch the source computes a from/to pair into local variables and then
returns `generate_report(period="custom")` without passing them — the
model reproduces that faithfully.  `segment_by` only affects the query
parameters, which the abstract collaborator already closes over. -/
def generate_custom_report (mp : MixPanel) (today : ℤ)
    (events : List String) (from_date to_date : Option ℤ)
    (days : Option ℕ) : CustomReport :=
  match days with
  | some d =>
      if d ≠ 0 then
        -- locals `to_date`/`from_date` are assigned from `days` here in the
        -- source and never used: the call below ignores them
        .standard (generate_report mp "custom" today)
      else
        if events.isEmpty then .standard (generate_report mp "custom" today)
        else .adhoc from_date to_date events
          (events.map (fun ev =>
            (ev, mp.get_segmentation_data ev (from_date.getD 0) (to_date.getD 0))))
  | none =>
      if events.isEmpty then .standard (generate_report mp "custom" today)
      else .adhoc from_date to_date events
        (events.map (fun ev =>
          (ev, mp.get_segmentation_data ev (from_date.getD 0) (to_date.getD 0))))

/-- The source's `int((event['count'] / max_count) * 8)` of
`SlackClient._build_report_blocks` (slack_client.py line 196): exact over
the rationals this is `⌊8·count/max_count⌋`, i.e. natural division. -/
def bar_len (count maxCount : ℕ) : ℕ := count * 8 / maxCount

/-- The source's `"█" * max(1, bar_length) + "░" * (8 - bar_length)`
(slack_client.py line 197). -/
def bar_string (count maxCount : ℕ) : String :=
  String.mk (List.replicate (max 1 (bar_len count maxCount)) '█' ++
             List.replicate (8 - bar_len count maxCount) '░')

/-- The source's `max(e['count'] for e in top_events[:5])` as a fold (the list the
source takes the maximum of is non-empty where this is used). -/
def maxCount (tes : List (String × ℕ)) : ℕ :=
  (tes.map Prod.snd).foldl max 0

/-- The proportional bars of the top-events section of
`_build_report_blocks` (slack_client.py lines 186–198): one bar per
displayed event (the first five), scaled to the maximum displayed count. -/
def top_events_bars (tes : List (String × ℕ)) : List String :=
  (tes.take 5).map (fun te => bar_string te.2 (maxCount (tes.take 5)))

/-- Occurrences of a name among the exported records. -/
def countOcc (name : String) (events : List RawEvent) : ℕ :=
  (events.filter (fun e => eventName e = name)).length

/-- Index of the first record bearing a name (the first-seen position). -/
def firstIdx (name : String) (events : List RawEvent) : ℕ :=
  (events.map eventName).indexOf name

/-- The lexicographic order the ranker's output is sorted by: count
strictly descending, ties by first-seen position in the raw input. -/
def rankedBefore (events : List RawEvent) (a b : String × ℕ) : Prop :=
  b.2 < a.2 ∨ (a.2 = b.2 ∧ firstIdx a.1 events < firstIdx b.1 events)

/-- Test fixture: a collaborator whose every call raises. -/
def badMp : MixPanel :=
  { get_segmentation_data := fun _ _ _ => .error "network down",
    get_unique_users := fun _ _ _ => .error "network down",
    get_top_events := fun _ _ _ => .error "network down" }

/-- Test fixture: a one-day, one-segment response payload totalling 7. -/
def sevenResponse : List (String × List (String × ℕ)) :=
  [("2024-01-01", [("all", 7)])]

/-- Test fixture: a collaborator whose every query succeeds with total 7. -/
def goodMp : MixPanel :=
  { get_segmentation_data := fun _ _ _ => .ok (.ok sevenResponse),
    get_unique_users := fun _ _ _ => .ok (.ok sevenResponse),
    get_top_events := fun _ _ _ => .ok [("Sign Up", 7)] }

/-- Test fixture: a query for which event `"x"` raises and event `"y"`
succeeds with total 7. -/
def qXfailYok : String → Except String MpResponse :=
  fun ev => if ev = "y" then .ok (.ok sevenResponse) else .error "boom"

/-- Test fixture: the spec's worked ranker example, records A B A C B A. -/
def exampleEvents : List RawEvent :=
  [⟨some "A"⟩, ⟨some "B"⟩, ⟨some "A"⟩, ⟨some "C"⟩, ⟨some "B"⟩, ⟨some "A"⟩]

/-- First-seen-ordered exact counts: head record's name with its full
occurrence count, then the counts of the remaining records with that name
removed.  This is the closed form the counting loop is proved equal to. -/
def canonicalCounts : List RawEvent → List (String × ℕ)
  | [] => []
  | e :: rest =>
      (eventName e, 1 + countOcc (eventName e) rest) ::
        (canonicalCounts rest).filter (fun p => p.1 != eventName e)

/-! ## Theorems -/

theorem pyRound1_tenth (q : ℚ) : ∃ k : ℤ, |pyRound1 q| = (k : ℚ) / 10 :=
  ⟨|roundHalfEven (10 * q)|, by
    rw [pyRound1, abs_div, Int.cast_abs]
    norm_num⟩

/-- C2: the comparison engine.  `previous = 0` with positive `current`
yields 100% / up / new; `previous = 0 = current` yields 0% / flat / not
new; otherwise the percent is the absolute one-decimal rounding of
`((current - previous)/previous)*100`, the direction follows the order of
`current` and `previous`, and `is_new` is false; the percent is always
non-negative and an integer multiple of one tenth. -/
theorem comparison_engine_compare (current previous : ℕ) :
    (previous = 0 → 0 < current →
      calculate_change current previous =
        { percent := 100, direction := .up, previous := none, is_new := true }) ∧
    (previous = 0 → current = 0 →
      calculate_change current previous =
        { percent := 0, direction := .flat, previous := none, is_new := false }) ∧
    (0 < previous →
      calculate_change current previous =
        { percent := |pyRound1 (((current : ℚ) - (previous : ℚ)) / (previous : ℚ) * 100)|,
          direction :=
            if previous < current then .up
            else if current < previous then .down else .flat,
          previous := some previous, is_new := false }) ∧
    0 ≤ (calculate_change current previous).percent ∧
    (∃ k : ℤ, (calculate_change current previous).percent = (k : ℚ) / 10) := by
  refine ⟨?_, ?_, ?_, ?_, ?_⟩
  · intro hp hc
    simp [calculate_change, hp, hc]
  · intro hp hc
    simp [calculate_change, hp, hc]
  · intro hp
    have hp0 : previous ≠ 0 := Nat.pos_iff_ne_zero.mp hp
    have hpq : (0 : ℚ) < previous := by exact_mod_cast hp
    simp only [calculate_change, if_neg hp0]
    rcases lt_trichotomy previous current with hlt | heq | hgt
    · have hcq : (previous : ℚ) < current := by exact_mod_cast hlt
      have hchg : 0 < ((current : ℚ) - previous) / previous * 100 :=
        mul_pos (div_pos (sub_pos.mpr hcq) hpq) (by norm_num)
      rw [if_pos hchg, if_pos hlt]
    · subst heq
      have hchg : ((previous : ℚ) - previous) / previous * 100 = 0 := by ring
      rw [hchg]
      norm_num
    · have hcq : (current : ℚ) < previous := by exact_mod_cast hgt
      have hchg : ((current : ℚ) - previous) / previous * 100 < 0 :=
        mul_neg_of_neg_of_pos (div_neg_of_neg_of_pos (sub_neg.mpr hcq) hpq) (by norm_num)
      rw [if_neg (asymm hchg), if_pos hchg, if_neg (Nat.lt_asymm hgt), if_pos hgt]
  · by_cases hp : previous = 0
    · by_cases hc : 0 < current
      · simp [calculate_change, hp, hc]
      · simp [calculate_change, hp, hc]
    · simp only [calculate_change, if_neg hp]
      exact abs_nonneg _
  · by_cases hp : previous = 0
    · by_cases hc : 0 < current
      · exact ⟨1000, by simp [calculate_change, hp, hc]; norm_num⟩
      · exact ⟨0, by simp [calculate_change, hp, hc]⟩
    · simp only [calculate_change, if_neg hp]
      exact pyRound1_tenth _

theorem comparison_engine_compare_witness :
    calculate_change 5 0 =
      { percent := 100, direction := .up, previous := none, is_new := true } ∧
    calculate_change 0 0 =
      { percent := 0, direction := .flat, previous := none, is_new := false } ∧
    (calculate_change 150 100).direction = Direction.up ∧
    (calculate_change 50 100).direction = Direction.down := by
  refine ⟨(comparison_engine_compare 5 0).1 rfl (by norm_num),
          (comparison_engine_compare 0 0).2.1 rfl rfl, ?_, ?_⟩
  · have h := (comparison_engine_compare 150 100).2.2.1 (by norm_num)
    rw [h]
    norm_num
  · have h := (comparison_engine_compare 50 100).2.2.1 (by norm_num)
    rw [h]
    norm_num

/-- C3 (counterexample): the current and previous inclusive windows DO
share a calendar day.  For the daily period at day 0 the current window
is [-1, 0] and the previous window is [-2, -1]: day -1 lies in both, so
the claim's "shares no calendar day" conjunct is false. -/
theorem date_windows_counterexample :
    ¬ (∀ d : ℤ, memWindow d (get_date_range "daily" 0) →
        ¬ memWindow d (get_previous_period_dates "daily" 0)) := by
  intro h
  exact h (-1) (by decide) (by decide)

/-- C3 (amended): for every named period the current window satisfies
`to_date ≥ from_date`, and the previous window has the same length and
ends exactly at the current window's start — the two inclusive windows
share exactly that one boundary day instead of being disjoint. -/
theorem date_windows_amended (period : String) (today : ℤ)
    (h : period ∈ ["daily", "weekly", "biweekly", "monthly"]) :
    (get_date_range period today).1 ≤ (get_date_range period today).2 ∧
    (get_date_range period today).2 - (get_date_range period today).1 =
      (get_previous_period_dates period today).2 -
        (get_previous_period_dates period today).1 ∧
    (get_previous_period_dates period today).2 = (get_date_range period today).1 ∧
    (∀ d : ℤ, memWindow d (get_date_range period today) →
      memWindow d (get_previous_period_dates period today) →
      d = (get_date_range period today).1) := by
  simp only [List.mem_cons, List.mem_singleton, List.not_mem_nil, or_false] at h
  rcases h with rfl | rfl | rfl | rfl
  · rw [show get_date_range "daily" today = (today - 1, today) from rfl,
      show get_previous_period_dates "daily" today = (today - 1 - 1, today - 1) from rfl]
    refine ⟨by omega, by omega, by omega, ?_⟩
    rintro d ⟨h1, h2⟩ ⟨h3, h4⟩
    omega
  · rw [show get_date_range "weekly" today = (today - 7, today) from rfl,
      show get_previous_period_dates "weekly" today = (today - 7 - 7, today - 7) from rfl]
    refine ⟨by omega, by omega, by omega, ?_⟩
    rintro d ⟨h1, h2⟩ ⟨h3, h4⟩
    omega
  · rw [show get_date_range "biweekly" today = (today - 14, today) from rfl,
      show get_previous_period_dates "biweekly" today = (today - 14 - 14, today - 14) from rfl]
    refine ⟨by omega, by omega, by omega, ?_⟩
    rintro d ⟨h1, h2⟩ ⟨h3, h4⟩
    omega
  · rw [show get_date_range "monthly" today = (today - 30, today) from rfl,
      show get_previous_period_dates "monthly" today = (today - 30 - 30, today - 30) from rfl]
    refine ⟨by omega, by omega, by omega, ?_⟩
    rintro d ⟨h1, h2⟩ ⟨h3, h4⟩
    omega

theorem date_windows_amended_witness :
    (get_previous_period_dates "weekly" 0).2 = (get_date_range "weekly" 0).1 :=
  (date_windows_amended "weekly" 0 (by norm_num)).2.2.1

/-- C6: the insight generator always returns a non-empty list, and when
the metrics mapping and the top-events list are both empty its output is
exactly the single fallback insight. -/
theorem insight_generator_nonempty (metrics : List (String × ℕ))
    (comparisons : List (String × Change)) (period : String)
    (top_events : List (String × ℕ)) :
    generate_insights metrics comparisons period top_events ≠ [] ∧
    (metrics = [] → top_events = [] →
      generate_insights metrics comparisons period top_events =
        ["Analytics data collected successfully"]) := by
  constructor
  · unfold generate_insights
    by_cases hl : (insight_steps metrics comparisons period top_events).isEmpty
    · rw [if_pos hl]
      simp
    · rw [if_neg hl]
      intro hnil
      exact hl (by rw [hnil]; rfl)
  · rintro rfl rfl
    rfl

theorem insight_generator_nonempty_witness :
    generate_insights [] [] "daily" [] = ["Analytics data collected successfully"] :=
  (insight_generator_nonempty [] [] "daily" []).2 rfl rfl

/-- C7: the claim is right and the code is wrong.  With an explicit
`days` argument (and no events and no explicit dates),
`generate_custom_report` computes the `days`-long window into local
variables, discards them, and delegates to
`generate_report(period="custom")`; `"custom"` is not a recognised
period, so `get_date_range` falls back to the one-day lookback.  For
`days = 30` the resolved window is `(today - 1, today)`, not
`(today - 30, today)`. -/
theorem custom_days_window_ignored (mp : MixPanel) (today : ℤ) :
    (generate_custom_report mp today [] none none (some 30) =
      .standard (generate_report mp "custom" today)) ∧
    (generate_report mp "custom" today).from_date = today - 1 ∧
    (generate_report mp "custom" today).to_date = today ∧
    (generate_report mp "custom" today).from_date ≠ today - 30 := by
  refine ⟨rfl, rfl, rfl, ?_⟩
  have h : (generate_report mp "custom" today).from_date = today - 1 := rfl
  rw [h]
  omega

/-- C1 (counterexample): a collaborator whose every call raises does NOT
produce a report with `error` set — every failure is isolated inside its
own stage (`_get_top_events` catches, `_calculate_metrics` catches per
metric), so nothing reaches the assembler's handler: `error` stays unset,
metrics are empty, and the single fallback insight is emitted. -/
theorem assembler_total_failure_counterexample :
    (generate_report badMp "daily" 0).error = none ∧
    (generate_report badMp "daily" 0).metrics = [] ∧
    (generate_report badMp "daily" 0).insights =
      ["Analytics data collected successfully"] :=
  ⟨rfl, rfl, rfl⟩

/-- C1 (amended): if a stage of the assembly lets an exception escape,
the handler sets `error` to its description and appends the one
degraded-mode insight, still returning a Report; but a collaborator whose
every call errors never reaches that handler — it yields a Report with
`error` UNSET, empty metrics, and at least one (the fallback) insight. -/
theorem assembler_degrades_and_isolates :
    (∀ (r : Report) (e : String)
        (mets pmets : Except String (List (String × ℕ))),
      (run_report_body r (.error e) mets pmets).error = some e ∧
      (run_report_body r (.error e) mets pmets).insights =
        r.insights ++ ["Some data could not be retrieved: " ++ e]) ∧
    (∀ (r : Report) (tv : List (String × ℕ)) (e : String)
        (pmets : Except String (List (String × ℕ))),
      (run_report_body r (.ok tv) (.error e) pmets).error = some e ∧
      (run_report_body r (.ok tv) (.error e) pmets).insights =
        r.insights ++ ["Some data could not be retrieved: " ++ e]) ∧
    (∀ (r : Report) (tv ms : List (String × ℕ)) (e : String),
      (run_report_body r (.ok tv) (.ok ms) (.error e)).error = some e ∧
      (run_report_body r (.ok tv) (.ok ms) (.error e)).insights =
        r.insights ++ ["Some data could not be retrieved: " ++ e]) ∧
    ((generate_report badMp "daily" 0).error = none ∧
     (generate_report badMp "daily" 0).metrics = [] ∧
     (generate_report badMp "daily" 0).insights ≠ []) := by
  refine ⟨fun r e m p => ⟨rfl, rfl⟩, fun r tv e p => ⟨rfl, rfl⟩,
    fun r tv ms e => ⟨rfl, rfl⟩, rfl, rfl, ?_⟩
  decide

/-- C4: per-metric isolation of the aggregation loop.  In general the
loop is the independent per-entry filterMap of its table — one metric's
outcome never influences another's — and in particular with a failing
metric X (raise, error dictionary, or empty/zero result) and a metric Y
totalling 7, the result is exactly `{Y: 7}` with no key for X.  The loop
is a total function (return type `List`, not `Except`): no exception
propagates to the caller. -/
theorem aggregator_per_metric_isolation
    (q : String → Except String MpResponse)
    (table : List (String × String))
    (dX eX dY eY msg : String) (vsX vs : List (String × List (String × ℕ))) :
    (metric_totals q table = table.filterMap (fun entry =>
      match q entry.2 with
      | .error _ => none
      | .ok resp =>
          match respValues resp with
          | none => none
          | some values =>
              if totalOf values > 0 then some (entry.1, totalOf values)
              else none)) ∧
    ((q eX = .error msg ∨ q eX = .ok (.err msg) ∨
        (q eX = .ok (.ok vsX) ∧ totalOf vsX = 0)) →
      q eY = .ok (.ok vs) → totalOf vs = 7 →
      metric_totals q [(dX, eX), (dY, eY)] = [(dY, 7)]) := by
  constructor
  · induction table with
    | nil => rfl
    | cons entry rest ih =>
        obtain ⟨d, e⟩ := entry
        simp only [List.filterMap_cons]
        cases hq : q e with
        | error m => simp [metric_totals, hq, ih]
        | ok resp =>
            cases resp with
            | err m => simp [metric_totals, respValues, hq, ih]
            | ok values =>
                by_cases ht : totalOf values > 0
                · simp [metric_totals, respValues, hq, ht, ih]
                · simp [metric_totals, respValues, hq, ht, ih]
  · intro hX hY h7
    rcases hX with hX | hX | ⟨hX, hX0⟩
    · simp [metric_totals, hX, hY, respValues, h7]
    · simp [metric_totals, hX, hY, respValues, h7]
    · simp [metric_totals, hX, hY, respValues, h7, hX0]

theorem aggregator_per_metric_isolation_witness :
    metric_totals qXfailYok [("X", "x"), ("Y", "y")] = [("Y", 7)] :=
  (aggregator_per_metric_isolation qXfailYok [] "X" "x" "Y" "y" "boom" []
    sevenResponse).2 (Or.inl rfl) rfl rfl

theorem lookup_isSome_iff {β : Type} (n : String) (l : List (String × β)) :
    (l.lookup n).isSome ↔ n ∈ l.map Prod.fst := by
  induction l with
  | nil => simp [List.lookup]
  | cons p rest ih =>
      obtain ⟨k, v⟩ := p
      by_cases h : n = k
      · simp [List.lookup, h]
      · have hb : (n == k) = false := by simp [h]
        simp [List.lookup, hb, ih, h]

theorem generate_report_def (mp : MixPanel) (period : String) (today : ℤ) :
    generate_report mp period today =
      { period := period,
        from_date := (get_date_range period today).1,
        to_date := (get_date_range period today).2,
        metrics := calculate_metrics mp (get_date_range period today).1
          (get_date_range period today).2 period,
        top_events := get_top_events_isolated mp (get_date_range period today).1
          (get_date_range period today).2,
        insights := generate_insights
          (calculate_metrics mp (get_date_range period today).1
            (get_date_range period today).2 period)
          (compute_comparisons
            (calculate_metrics mp (get_date_range period today).1
              (get_date_range period today).2 period)
            (calculate_metrics mp (get_previous_period_dates period today).1
              (get_previous_period_dates period today).2 period))
          period
          (get_top_events_isolated mp (get_date_range period today).1
            (get_date_range period today).2),
        comparisons := compute_comparisons
          (calculate_metrics mp (get_date_range period today).1
            (get_date_range period today).2 period)
          (calculate_metrics mp (get_previous_period_dates period today).1
            (get_previous_period_dates period today).2 period),
        error := none } := rfl

/-- C9: in every assembled report, the comparisons mapping carries
exactly the metric names of the metrics mapping (so its key set is in
particular a subset of the metrics' key set). -/
theorem comparisons_keys_subset_metrics (mp : MixPanel) (period : String)
    (today : ℤ) :
    ((generate_report mp period today).comparisons.map Prod.fst =
      (generate_report mp period today).metrics.map Prod.fst) ∧
    ∀ name : String,
      (((generate_report mp period today).comparisons.lookup name).isSome →
        ((generate_report mp period today).metrics.lookup name).isSome) := by
  have hkeys : (generate_report mp period today).comparisons.map Prod.fst =
      (generate_report mp period today).metrics.map Prod.fst := by
    rw [generate_report_def]
    simp [compute_comparisons, List.map_map, Function.comp]
  refine ⟨hkeys, fun name h => ?_⟩
  rw [lookup_isSome_iff] at h ⊢
  rw [hkeys] at h
  exact h

theorem comparisons_keys_subset_metrics_witness :
    ((generate_report goodMp "daily" 0).metrics.lookup "New Signups").isSome :=
  (comparisons_keys_subset_metrics goodMp "daily" 0).2 "New Signups" (by decide)

theorem metric_totals_pos (q : String → Except String MpResponse)
    (table : List (String × String)) :
    ∀ p ∈ metric_totals q table, 0 < p.2 := by
  induction table with
  | nil => intro p hp; cases hp
  | cons entry rest ih =>
      obtain ⟨d, e⟩ := entry
      intro p hp
      cases hq : q e with
      | error m =>
          rw [show metric_totals q ((d, e) :: rest) = metric_totals q rest from by
            simp [metric_totals, hq]] at hp
          exact ih p hp
      | ok resp =>
          cases resp with
          | err m =>
              rw [show metric_totals q ((d, e) :: rest) = metric_totals q rest from by
                simp [metric_totals, respValues, hq]] at hp
              exact ih p hp
          | ok values =>
              by_cases ht : totalOf values > 0
              · rw [show metric_totals q ((d, e) :: rest) =
                    (d, totalOf values) :: metric_totals q rest from by
                  simp [metric_totals, respValues, hq, ht]] at hp
                rcases List.mem_cons.mp hp with rfl | hp
                · exact ht
                · exact ih p hp
              · rw [show metric_totals q ((d, e) :: rest) = metric_totals q rest from by
                  simp [metric_totals, respValues, hq, ht]] at hp
                exact ih p hp

theorem activeUsersLoop_pos (q : String → Except String MpResponse)
    (l : List String) (t : ℕ) : activeUsersLoop q l = some t → 0 < t := by
  induction l with
  | nil => intro h; cases h
  | cons ev rest ih =>
      intro h
      cases hq : q ev with
      | error m =>
          rw [show activeUsersLoop q (ev :: rest) = activeUsersLoop q rest from by
            simp [activeUsersLoop, hq]] at h
          exact ih h
      | ok resp =>
          cases resp with
          | err m =>
              rw [show activeUsersLoop q (ev :: rest) = activeUsersLoop q rest from by
                simp [activeUsersLoop, respValues, hq]] at h
              exact ih h
          | ok values =>
              by_cases ht : totalOf values > 0
              · rw [show activeUsersLoop q (ev :: rest) = some (totalOf values) from by
                  simp [activeUsersLoop, respValues, hq, ht]] at h
                cases h
                exact ht
              · rw [show activeUsersLoop q (ev :: rest) = activeUsersLoop q rest from by
                  simp [activeUsersLoop, respValues, hq, ht]] at h
                exact ih h

/-- C10: every value stored by the metric aggregation is strictly
positive — a successful query totalling zero is omitted exactly like a
failed one, on the key-metric loop and on the active-users candidate
loop alike. -/
theorem metrics_values_strictly_positive (mp : MixPanel)
    (from_date to_date : ℤ) (period : String) :
    (∀ p ∈ calculate_metrics mp from_date to_date period, 0 < p.2) ∧
    (∀ (q : String → Except String MpResponse) (d e : String)
        (rest : List (String × String)) (vs : List (String × List (String × ℕ))),
      q e = .ok (.ok vs) → totalOf vs = 0 →
      metric_totals q ((d, e) :: rest) = metric_totals q rest) ∧
    (∀ (q : String → Except String MpResponse) (ev : String)
        (rest : List String) (vs : List (String × List (String × ℕ))),
      q ev = .ok (.ok vs) → totalOf vs = 0 →
      activeUsersLoop q (ev :: rest) = activeUsersLoop q rest) := by
  refine ⟨?_, ?_, ?_⟩
  · intro p hp
    unfold calculate_metrics at hp
    rw [List.mem_append] at hp
    rcases hp with hp | hp
    · cases hA : activeUsersLoop
          (fun ev => mp.get_unique_users ev from_date to_date)
          ["$ae_session", "Sign Up", "User Onboarded"] with
      | none => rw [hA] at hp; cases hp
      | some t =>
          rw [hA] at hp
          rw [List.mem_singleton] at hp
          subst hp
          exact activeUsersLoop_pos _ _ _ hA
    · exact metric_totals_pos _ _ p hp
  · intro q d e rest vs hq ht
    simp [metric_totals, respValues, hq, ht]
  · intro q ev rest vs hq ht
    simp [activeUsersLoop, respValues, hq, ht]

theorem metrics_values_strictly_positive_witness :
    0 < (("Daily Active Users", 7) : String × ℕ).2 :=
  (metrics_values_strictly_positive goodMp 0 1 "daily").1 _ (by decide)

/-- C8 (counterexample): displayed bars do NOT all have one fixed total
width.  With displayed events A:100 and B:1, A's bar is 8 filled cells
(width 8) while B's scaled length truncates to 0, giving 1 filled cell
plus 8 blank cells — width 9. -/
theorem bar_width_counterexample :
    ¬ (∀ s ∈ top_events_bars [("A", 100), ("B", 1)],
        ∀ t ∈ top_events_bars [("A", 100), ("B", 1)], s.length = t.length) := by
  decide

theorem le_foldl_max (a : ℕ) (l : List ℕ) : a ≤ l.foldl max a := by
  induction l generalizing a with
  | nil => exact le_refl a
  | cons x xs ih => exact le_trans (le_max_left a x) (ih (max a x))

theorem mem_le_foldl_max (l : List ℕ) : ∀ a x, x ∈ l → x ≤ l.foldl max a := by
  induction l with
  | nil => intro a x h; cases h
  | cons y ys ih =>
      intro a x h
      rcases List.mem_cons.mp h with rfl | h
      · exact le_trans (le_max_right a x) (le_foldl_max (max a x) ys)
      · exact ih (max a y) x h

/-- C8 (amended): every displayed event's bar has at least one filled
unit, and its total character width is 8 when the scaled length is
positive but 9 when the scaled length truncates to zero (the blank
portion is computed from the unclamped length, so the minimum-one clamp
widens the bar). -/
theorem bar_width_amended (tes : List (String × ℕ))
    (h : 0 < maxCount (tes.take 5)) :
    ∀ te ∈ tes.take 5,
      1 ≤ max 1 (bar_len te.2 (maxCount (tes.take 5))) ∧
      (bar_string te.2 (maxCount (tes.take 5))).length =
        (if bar_len te.2 (maxCount (tes.take 5)) = 0 then 9 else 8) := by
  intro te hte
  have hle : te.2 ≤ maxCount (tes.take 5) := by
    have hmem : te.2 ∈ (tes.take 5).map Prod.snd := List.mem_map_of_mem _ hte
    exact mem_le_foldl_max _ 0 te.2 hmem
  set m := maxCount (tes.take 5) with hm
  have hlen8 : bar_len te.2 m ≤ 8 := by
    unfold bar_len
    calc te.2 * 8 / m ≤ m * 8 / m :=
          Nat.div_le_div_right (Nat.mul_le_mul_right 8 hle)
    _ = 8 := Nat.mul_div_cancel_left 8 h
  refine ⟨le_max_left 1 _, ?_⟩
  have hslen : (bar_string te.2 m).length =
      (max 1 (bar_len te.2 m)) + (8 - bar_len te.2 m) := by
    unfold bar_string
    simp [String.length]
  rw [hslen]
  by_cases h0 : bar_len te.2 m = 0
  · rw [if_pos h0, h0]
    decide
  · rw [if_neg h0]
    have h1 : 1 ≤ bar_len te.2 m := Nat.pos_of_ne_zero h0
    rw [max_eq_right h1]
    omega

theorem bar_width_amended_witness :
    1 ≤ max 1 (bar_len 1 (maxCount ([("A", 100), ("B", 1)].take 5))) ∧
    (bar_string 1 (maxCount ([("A", 100), ("B", 1)].take 5))).length = 9 := by
  have h := bar_width_amended [("A", 100), ("B", 1)] (by decide) ("B", 1) (by decide)
  refine ⟨h.1, ?_⟩
  rw [h.2]
  decide


theorem countOcc_nil (n : String) : countOcc n [] = 0 := rfl

theorem countOcc_cons (n : String) (e : RawEvent) (l : List RawEvent) :
    countOcc n (e :: l) = (if eventName e = n then 1 else 0) + countOcc n l := by
  unfold countOcc
  by_cases h : eventName e = n
  · rw [List.filter_cons_of_pos (by simp [h]), if_pos h]
    simp [Nat.add_comm]
  · rw [List.filter_cons_of_neg (by simp [h]), if_neg h]
    simp

theorem countOcc_filter_of (m : String) (q : RawEvent → Bool)
    (l : List RawEvent) (h : ∀ e, eventName e = m → q e = true) :
    countOcc m (l.filter q) = countOcc m l := by
  induction l with
  | nil => rfl
  | cons e rest ih =>
      by_cases hm : eventName e = m
      · rw [List.filter_cons_of_pos (h e hm), countOcc_cons, countOcc_cons, ih]
      · cases hq : q e
        · rw [List.filter_cons_of_neg (by simp [hq]), countOcc_cons, if_neg hm, ih]
          simp
        · rw [List.filter_cons_of_pos hq, countOcc_cons, countOcc_cons, ih]

theorem canonicalCounts_cons (e : RawEvent) (rest : List RawEvent) :
    canonicalCounts (e :: rest) =
      (eventName e, 1 + countOcc (eventName e) rest) ::
        (canonicalCounts rest).filter (fun p => p.1 != eventName e) := rfl

theorem canonicalCounts_filter (l : List RawEvent) (n : String) :
    canonicalCounts (l.filter (fun e => eventName e != n)) =
      (canonicalCounts l).filter (fun p => p.1 != n) := by
  induction l with
  | nil => rfl
  | cons e rest ih =>
      by_cases hmn : eventName e = n
      · rw [List.filter_cons_of_neg (by simp [hmn]), ih, canonicalCounts_cons,
          List.filter_cons_of_neg (by simp [hmn]), List.filter_filter]
        apply List.filter_congr
        intro p hp
        rw [hmn, Bool.and_self]
      · rw [List.filter_cons_of_pos (by simp [hmn]), canonicalCounts_cons,
          countOcc_filter_of (eventName e) _ rest (fun e' he' => by simp [he', hmn]),
          ih, canonicalCounts_cons,
          List.filter_cons_of_pos (by simp [hmn]), List.filter_filter,
          List.filter_filter]
        congr 1
        apply List.filter_congr
        intro p hp
        rw [Bool.and_comm]

theorem bump_keys (name : String) (acc : List (String × ℕ)) :
    (bump name acc).map Prod.fst =
      (if name ∈ acc.map Prod.fst then acc.map Prod.fst
       else acc.map Prod.fst ++ [name]) := by
  induction acc with
  | nil => simp [bump]
  | cons p rest ih =>
      obtain ⟨k, c⟩ := p
      by_cases hk : k = name
      · subst hk
        rw [show bump k ((k, c) :: rest) = (k, c + 1) :: rest from by simp [bump]]
        simp
      · rw [show bump name ((k, c) :: rest) = (k, c) :: bump name rest from by
          simp [bump, hk]]
        by_cases hmem : name ∈ rest.map Prod.fst
        · simp [ih, hmem, List.mem_cons, Ne.symm hk]
        · simp [ih, hmem, List.mem_cons, Ne.symm hk]

theorem bump_of_not_mem (name : String) (acc : List (String × ℕ))
    (h : name ∉ acc.map Prod.fst) : bump name acc = acc ++ [(name, 1)] := by
  induction acc with
  | nil => rfl
  | cons p rest ih =>
      obtain ⟨k, c⟩ := p
      simp only [List.map_cons, List.mem_cons] at h
      push_neg at h
      have hk : ¬ k = name := fun hkn => h.1 hkn.symm
      rw [show bump name ((k, c) :: rest) = (k, c) :: bump name rest from by
        simp [bump, hk]]
      rw [ih h.2]
      rfl

theorem bump_of_mem (name : String) (acc : List (String × ℕ))
    (hnd : (acc.map Prod.fst).Nodup) (h : name ∈ acc.map Prod.fst) :
    bump name acc =
      acc.map (fun p => if p.1 = name then (p.1, p.2 + 1) else p) := by
  induction acc with
  | nil => cases h
  | cons p rest ih =>
      obtain ⟨k, c⟩ := p
      simp only [List.map_cons, List.nodup_cons] at hnd
      by_cases hk : k = name
      · subst hk
        rw [show bump k ((k, c) :: rest) = (k, c + 1) :: rest from by simp [bump]]
        simp only [List.map_cons, if_pos rfl]
        congr 1
        have : ∀ p ∈ rest, (if (p : String × ℕ).1 = k then (p.1, p.2 + 1) else p) = p := by
          intro p hp
          rw [if_neg]
          intro hpk
          exact hnd.1 (hpk ▸ List.mem_map_of_mem Prod.fst hp)
        rw [List.map_congr_left this]
        simp
      · simp only [List.map_cons, List.mem_cons] at h
        rcases h with h | h
        · exact absurd h.symm hk
        · rw [show bump name ((k, c) :: rest) = (k, c) :: bump name rest from by
            simp [bump, hk]]
          rw [ih hnd.2 h]
          simp [hk]

theorem bump_keys_nodup (name : String) (acc : List (String × ℕ))
    (hnd : (acc.map Prod.fst).Nodup) : ((bump name acc).map Prod.fst).Nodup := by
  rw [bump_keys]
  by_cases h : name ∈ acc.map Prod.fst
  · rw [if_pos h]
    exact hnd
  · rw [if_neg h]
    rw [List.nodup_append]
    exact ⟨hnd, List.nodup_singleton name, by
      intro a ha hb
      rw [List.mem_singleton] at hb
      subst hb
      exact h ha⟩

theorem count_events_from_eq (l : List RawEvent) :
    ∀ acc : List (String × ℕ), (acc.map Prod.fst).Nodup →
      count_events_from l acc =
        acc.map (fun p => (p.1, p.2 + countOcc p.1 l)) ++
          canonicalCounts
            (l.filter (fun e => !((acc.map Prod.fst).contains (eventName e)))) := by
  induction l with
  | nil =>
      intro acc hnd
      rw [show count_events_from [] acc = acc from rfl]
      rw [show List.filter (fun e =>
        !((acc.map Prod.fst).contains (eventName e))) [] = [] from rfl]
      rw [show canonicalCounts [] = [] from rfl, List.append_nil]
      have h : ∀ p ∈ acc, ((p : String × ℕ).1, p.2 + countOcc p.1 []) = p := by
        intro p hp
        rw [countOcc_nil, Nat.add_zero]
      rw [List.map_congr_left h]
      simp
  | cons e rest ih =>
      intro acc hnd
      rw [show count_events_from (e :: rest) acc =
        count_events_from rest (bump (eventName e) acc) from rfl]
      rw [ih (bump (eventName e) acc) (bump_keys_nodup _ _ hnd)]
      by_cases hmem : eventName e ∈ acc.map Prod.fst
      · have hbk : (bump (eventName e) acc).map Prod.fst = acc.map Prod.fst := by
          rw [bump_keys, if_pos hmem]
        rw [hbk]
        rw [List.filter_cons_of_neg (by simp [List.elem_eq_mem, hmem])]
        congr 1
        rw [bump_of_mem _ _ hnd hmem, List.map_map]
        apply List.map_congr_left
        intro p hp
        by_cases hpm : p.1 = eventName e
        · simp only [Function.comp_apply, if_pos hpm]
          rw [countOcc_cons, if_pos hpm.symm]
          simp only [Prod.mk.injEq, true_and]
          omega
        · simp only [Function.comp_apply, if_neg hpm]
          rw [countOcc_cons, if_neg (fun h => hpm h.symm)]
          simp
      · have hbk : (bump (eventName e) acc).map Prod.fst =
            acc.map Prod.fst ++ [eventName e] := by
          rw [bump_keys, if_neg hmem]
        rw [hbk, bump_of_not_mem _ _ hmem, List.map_append]
        rw [List.filter_cons_of_pos (by simp [List.elem_eq_mem, hmem])]
        rw [canonicalCounts_cons]
        rw [countOcc_filter_of (eventName e) _ rest (fun e' he' => by
          simp [List.elem_eq_mem, he', hmem])]
        rw [← canonicalCounts_filter
          (rest.filter (fun e' => !((acc.map Prod.fst).contains (eventName e'))))
          (eventName e)]
        rw [List.filter_filter]
        have hq : List.filter (fun a =>
              (eventName a != eventName e) &&
                !((acc.map Prod.fst).contains (eventName a))) rest =
            List.filter (fun a =>
              !(((acc.map Prod.fst) ++ [eventName e]).contains (eventName a))) rest := by
          apply List.filter_congr
          intro a ha
          by_cases h1 : eventName a = eventName e
          · simp [List.elem_eq_mem, h1]
          · by_cases h2 : eventName a ∈ acc.map Prod.fst
            · simp [List.elem_eq_mem, h1, h2]
            · simp [List.elem_eq_mem, h1, h2]
        rw [hq]
        rw [List.append_assoc]
        congr 1
        · apply List.map_congr_left
          intro p hp
          have hne : ¬ (eventName e = p.1) := fun h => hmem (by
            rw [h]
            exact List.mem_map_of_mem Prod.fst hp)
          rw [countOcc_cons, if_neg hne]
          simp

theorem count_events_eq_canonical (events : List RawEvent) :
    count_events events = canonicalCounts events := by
  have h := count_events_from_eq events [] (by simp)
  rw [count_events, h]
  rw [show List.map (fun p => ((p : String × ℕ).1, p.2 + countOcc p.1 events)) [] = []
    from rfl]
  rw [List.nil_append]
  congr 1
  exact List.filter_eq_self.mpr (fun a ha => rfl)

theorem canonicalCounts_counts (l : List RawEvent) :
    ∀ p ∈ canonicalCounts l, p.2 = countOcc p.1 l ∧ 0 < p.2 := by
  induction l with
  | nil => intro p hp; cases hp
  | cons e rest ih =>
      intro p hp
      rw [canonicalCounts_cons] at hp
      rcases List.mem_cons.mp hp with rfl | hp
      · constructor
        · rw [countOcc_cons, if_pos rfl]
        · simp
      · have hpne : p.1 ≠ eventName e := by
          have := List.of_mem_filter hp
          simpa using this
        have hmem := List.mem_of_mem_filter hp
        obtain ⟨hcount, hpos⟩ := ih p hmem
        refine ⟨?_, hpos⟩
        rw [countOcc_cons, if_neg (fun h => hpne h.symm), Nat.zero_add]
        exact hcount

theorem canonicalCounts_keys (l : List RawEvent) :
    ∀ n, n ∈ (canonicalCounts l).map Prod.fst ↔ n ∈ l.map eventName := by
  induction l with
  | nil => intro n; simp [canonicalCounts]
  | cons e rest ih =>
      intro n
      rw [canonicalCounts_cons]
      by_cases h : n = eventName e
      · subst h
        simp
      · simp only [List.map_cons, List.mem_cons]
        constructor
        · rintro (h1 | h1)
          · exact absurd h1 h
          · right
            rw [← ih n]
            obtain ⟨p, hp, hpn⟩ := List.mem_map.mp h1
            exact List.mem_map.mpr ⟨p, List.mem_of_mem_filter hp, hpn⟩
        · rintro (h1 | h1)
          · exact absurd h1 h
          · right
            obtain ⟨p, hp, hpn⟩ := List.mem_map.mp ((ih n).mpr h1)
            refine List.mem_map.mpr ⟨p, List.mem_filter.mpr ⟨hp, ?_⟩, hpn⟩
            subst hpn
            simpa using h

theorem firstIdx_cons_self (e : RawEvent) (l : List RawEvent) :
    firstIdx (eventName e) (e :: l) = 0 := by
  unfold firstIdx
  rw [List.map_cons]
  exact List.indexOf_cons_self _ _

theorem firstIdx_cons_ne (n : String) (e : RawEvent) (l : List RawEvent)
    (h : n ≠ eventName e) : firstIdx n (e :: l) = firstIdx n l + 1 := by
  unfold firstIdx
  rw [List.map_cons]
  exact List.indexOf_cons_ne _ (fun he => h he.symm)

theorem canonicalCounts_firstIdx (l : List RawEvent) :
    List.Pairwise (fun a b => firstIdx a.1 l < firstIdx b.1 l)
      (canonicalCounts l) := by
  induction l with
  | nil => exact List.Pairwise.nil
  | cons e rest ih =>
      rw [canonicalCounts_cons]
      constructor
      · intro b hb
        have hbne : b.1 ≠ eventName e := by
          have := List.of_mem_filter hb
          simpa using this
        rw [firstIdx_cons_self, firstIdx_cons_ne b.1 e rest hbne]
        exact Nat.succ_pos _
      · have hfil := ih.filter (fun p => p.1 != eventName e)
        apply hfil.imp_of_mem
        intro a b ha hb hab
        have hane : a.1 ≠ eventName e := by
          have := List.of_mem_filter ha
          simpa using this
        have hbne : b.1 ≠ eventName e := by
          have := List.of_mem_filter hb
          simpa using this
        rw [firstIdx_cons_ne a.1 e rest hane, firstIdx_cons_ne b.1 e rest hbne]
        exact Nat.succ_lt_succ hab

theorem insertDesc_perm (x : String × ℕ) (l : List (String × ℕ)) :
    (insertDesc x l).Perm (x :: l) := by
  induction l with
  | nil => exact List.Perm.refl _
  | cons y ys ih =>
      unfold insertDesc
      by_cases h : y.2 ≤ x.2
      · rw [if_pos h]
      · rw [if_neg h]
        exact (ih.cons y).trans (List.Perm.swap x y ys)

theorem sortDesc_perm (l : List (String × ℕ)) : (sortDesc l).Perm l := by
  induction l with
  | nil => exact List.Perm.refl _
  | cons x xs ih => exact (insertDesc_perm x (sortDesc xs)).trans (ih.cons x)

theorem mem_insertDesc (x w : String × ℕ) (l : List (String × ℕ)) :
    w ∈ insertDesc x l ↔ w = x ∨ w ∈ l := by
  rw [(insertDesc_perm x l).mem_iff]
  simp

theorem pairwise_insertDesc (r : String × ℕ → String × ℕ → Prop)
    (x : String × ℕ) :
    ∀ l : List (String × ℕ),
      List.Pairwise (fun a b => b.2 < a.2 ∨ (a.2 = b.2 ∧ r a b)) l →
      (∀ y ∈ l, r x y) →
      List.Pairwise (fun a b => b.2 < a.2 ∨ (a.2 = b.2 ∧ r a b))
        (insertDesc x l) := by
  intro l
  induction l with
  | nil =>
      intro _ _
      simp [insertDesc]
  | cons y ys ih =>
      intro hl hx
      obtain ⟨hy, hys⟩ := List.pairwise_cons.mp hl
      rw [show insertDesc x (y :: ys) =
        (if y.2 ≤ x.2 then x :: y :: ys else y :: insertDesc x ys) from rfl]
      by_cases h : y.2 ≤ x.2
      · rw [if_pos h]
        apply List.pairwise_cons.mpr
        refine ⟨?_, hl⟩
        intro z hz
        rcases List.mem_cons.mp hz with rfl | hz
        · rcases Nat.lt_or_ge z.2 x.2 with hlt | hge
          · exact Or.inl hlt
          · exact Or.inr ⟨Nat.le_antisymm hge h, hx z (List.mem_cons_self z ys)⟩
        · have hzy : z.2 ≤ y.2 := by
            rcases hy z hz with hzy | ⟨heq, _⟩
            · exact Nat.le_of_lt hzy
            · exact Nat.le_of_eq heq.symm
          rcases Nat.lt_or_ge z.2 x.2 with hlt | hge
          · exact Or.inl hlt
          · exact Or.inr ⟨Nat.le_antisymm hge (Nat.le_trans hzy h),
              hx z (List.mem_cons_of_mem y hz)⟩
      · rw [if_neg h]
        apply List.pairwise_cons.mpr
        constructor
        · intro w hw
          rcases (mem_insertDesc x w ys).mp hw with rfl | hw
          · exact Or.inl (Nat.lt_of_not_le h)
          · exact hy w hw
        · exact ih hys (fun z hz => hx z (List.mem_cons_of_mem y hz))

theorem pairwise_sortDesc (r : String × ℕ → String × ℕ → Prop) :
    ∀ l : List (String × ℕ), List.Pairwise r l →
      List.Pairwise (fun a b => b.2 < a.2 ∨ (a.2 = b.2 ∧ r a b)) (sortDesc l) := by
  intro l
  induction l with
  | nil =>
      intro _
      exact List.Pairwise.nil
  | cons x xs ih =>
      intro hl
      obtain ⟨hx, hxs⟩ := List.pairwise_cons.mp hl
      rw [show sortDesc (x :: xs) = insertDesc x (sortDesc xs) from rfl]
      apply pairwise_insertDesc r x (sortDesc xs) (ih hxs)
      intro y hy
      exact hx y ((sortDesc_perm xs).mem_iff.mp hy)

/-- C5: the ranker.  On empty input it returns the empty list; the output
never exceeds `limit` entries; every returned entry carries the exact
occurrence count of its event-name string (and is positive); before
truncation the output's names are exactly the names occurring in the
input; the output is strictly ordered by count descending with count
ties ordered by first-seen position in the input (`rankedBefore`, the
stable-sort order); and the spec's worked example holds:
`rank [A,B,A,C,B,A] 2 = [(A,3),(B,2)]`. -/
theorem top_events_ranker_correct (events : List RawEvent) (limit : ℕ) :
    rank [] limit = [] ∧
    (rank events limit).length ≤ limit ∧
    (∀ p ∈ rank events limit, p.2 = countOcc p.1 events ∧ 0 < p.2) ∧
    (∀ n, n ∈ (sortDesc (count_events events)).map Prod.fst ↔
      n ∈ events.map eventName) ∧
    List.Pairwise (rankedBefore events) (rank events limit) ∧
    rank exampleEvents 2 = [("A", 3), ("B", 2)] := by
  refine ⟨?_, List.length_take_le limit _, ?_, ?_, ?_, by decide⟩
  · unfold rank
    rw [show sortDesc (count_events []) = [] from rfl]
    simp
  · intro p hp
    have hmem := (List.take_sublist limit (sortDesc (count_events events))).subset hp
    have hmem2 := (sortDesc_perm (count_events events)).mem_iff.mp hmem
    rw [count_events_eq_canonical] at hmem2
    exact canonicalCounts_counts events p hmem2
  · intro n
    constructor
    · intro h
      have h2 : n ∈ (count_events events).map Prod.fst := by
        obtain ⟨p, hp, hpn⟩ := List.mem_map.mp h
        exact List.mem_map.mpr ⟨p, (sortDesc_perm _).mem_iff.mp hp, hpn⟩
      rw [count_events_eq_canonical] at h2
      exact (canonicalCounts_keys events n).mp h2
    · intro h
      have h2 := (canonicalCounts_keys events n).mpr h
      rw [← count_events_eq_canonical] at h2
      obtain ⟨p, hp, hpn⟩ := List.mem_map.mp h2
      exact List.mem_map.mpr ⟨p, (sortDesc_perm _).mem_iff.mpr hp, hpn⟩
  · have hbase : List.Pairwise
        (fun a b => firstIdx a.1 events < firstIdx b.1 events)
        (count_events events) := by
      rw [count_events_eq_canonical]
      exact canonicalCounts_firstIdx events
    have hsorted := pairwise_sortDesc _ (count_events events) hbase
    exact List.Pairwise.sublist (List.take_sublist limit _) hsorted

theorem top_events_ranker_correct_witness :
    (("A", 3) : String × ℕ).2 = countOcc "A" exampleEvents ∧
      0 < (("A", 3) : String × ℕ).2 :=
  (top_events_ranker_correct exampleEvents 2).2.2.1 ("A", 3) (by decide)
